import Mathlib

/-!
Verification of the dataset-preparation layer in `od/inputters/inputter.py`
(Chinese-gpt). We shallowly embed the pure content of `get_data`'s recursive
`tokenize`, the cache branch of `get_data`, and the per-dialogue instance
builder `data_process`, and prove the spec's claims about them.

Token ids are modelled as `Int` (the label sequences use the ignore marker
`-1`). Utterances are `List Int`, dialogues `List (List Int)`, and a tokenized
dataset is an association list from split name to its dialogues (a Python
`dict` with each key occurring once).
-/

/-- Python slice `l[start:stop]` (step 1) for `Int` bounds: a negative bound
counts from the end, and both bounds are clamped into `[0, len l]`. -/
def pySlice (start stop : Int) (l : List α) : List α :=
  let n : Int := l.length
  let s := if start < 0 then max 0 (n + start) else min n start
  let e := if stop < 0 then max 0 (n + stop) else min n stop
  (l.take e.toNat).drop s.toNat

/-- One training example: the three parallel integer sequences built by
`data_process` for one dialogue (the Python `instance` dict). -/
structure Instance where
  input_ids : List Int
  token_type_ids : List Int
  lm_labels : List Int
deriving DecidableEq, Repr

/-- Line 78: `history = dialog[-2*args.max_history:-1]`. -/
def historyOf (max_history : Nat) (dialog : List (List Int)) : List (List Int) :=
  pySlice (-(2 * (max_history : Int))) (-1) dialog

/-- Line 81: `sequence = [[bos]] + history + [resposne + ([eos] if with_eos else [])]`,
where `resposne = dialog[-1]` (line 79). The source indexes
`dialog[-1]`, which raises on an empty dialogue; we totalise with `getLastD []`
and every claim carries the `len(dialog) >= 2` precondition. -/
def sequenceOf (bos eos : Int) (max_history : Nat) (with_eos : Bool)
    (dialog : List (List Int)) : List (List Int) :=
  [bos] :: (historyOf max_history dialog ++
    [dialog.getLastD [] ++ (if with_eos then [eos] else [])])

/-- The list comprehension `[[speaker2 if i % 2 else speaker1] + s
for i, s in enumerate(...)]` of line 82, as a recursion carrying the
`enumerate` counter `i`. -/
def markTurns (speaker1 speaker2 : Int) : Nat → List (List Int) → List (List Int)
  | _, [] => []
  | i, s :: rest =>
    ((if i % 2 = 0 then speaker1 else speaker2) :: s) :: markTurns speaker1 speaker2 (i + 1) rest

/-- Line 82-83: `sequence = [sequence[0]] + [[speaker2 if i % 2 else speaker1] + s
for i, s in enumerate(sequence[1:])]`. -/
def markedOf (bos eos speaker1 speaker2 : Int) (max_history : Nat) (with_eos : Bool)
    (dialog : List (List Int)) : List (List Int) :=
  let sequence := sequenceOf bos eos max_history with_eos dialog
  sequence.headD [] :: markTurns speaker1 speaker2 0 sequence.tail

/-- The comprehension `[speaker2 if i % 2 else speaker1
for i, s in enumerate(sequence[1:]) for _ in s]` of line 86-87: for each
post-BOS turn `s` of the marked sequence, its speaker id repeated `len(s)`
times, with the `enumerate` counter carried explicitly. -/
def speakerTypes (speaker1 speaker2 : Int) : Nat → List (List Int) → List Int
  | _, [] => []
  | i, s :: rest =>
    List.replicate s.length (if i % 2 = 0 then speaker1 else speaker2) ++
      speakerTypes speaker1 speaker2 (i + 1) rest

/-- The per-dialogue body of `data_process` (lines 78-90): builds the marked
sequence, flattens it into `input_ids`, derives `token_type_ids`, and derives
`lm_labels` (all-ignore by default; if the `lm_labels` flag is set,
`[-1]*sum(len(s) for s in sequence[:-1]) + [-1] + sequence[-1][1:]`). -/
def processDialog (bos eos speaker1 speaker2 : Int) (max_history : Nat)
    (with_eos lm_labels : Bool) (dialog : List (List Int)) : Instance :=
  let sequence := markedOf bos eos speaker1 speaker2 max_history with_eos dialog
  let input_ids := sequence.flatten
  let token_type_ids := bos :: speakerTypes speaker1 speaker2 0 sequence.tail
  let lm :=
    if lm_labels then
      List.replicate ((pySlice 0 (-1) sequence).map List.length).sum (-1) ++
        (-1) :: (sequence.getLastD []).tail
    else
      List.replicate input_ids.length (-1)
  ⟨input_ids, token_type_ids, lm⟩

/-- Lines 72-95, `data_process`: every dialogue of every split becomes one
`Instance`; the `defaultdict`-and-append loop over a `dict` keyed by split
name is a map over the association list. -/
def data_process (bos eos speaker1 speaker2 : Int) (max_history : Nat)
    (data : List (String × List (List (List Int)))) (with_eos lm_labels : Bool) :
    List (String × List Instance) :=
  data.map fun p =>
    (p.1, p.2.map (processDialog bos eos speaker1 speaker2 max_history with_eos lm_labels))

/-! ### Structural lemmas about the marked sequence -/

theorem markTurns_append (s1 s2 : Int) (xs ys : List (List Int)) :
    ∀ j, markTurns s1 s2 j (xs ++ ys) =
      markTurns s1 s2 j xs ++ markTurns s1 s2 (j + xs.length) ys := by
  induction xs with
  | nil => intro j; simp [markTurns]
  | cons a rest ih =>
    intro j
    simp only [List.cons_append, markTurns, List.append_eq, ih (j + 1), List.length_cons]
    rw [show j + 1 + rest.length = j + (rest.length + 1) from by omega]

theorem length_markTurns (s1 s2 : Int) (l : List (List Int)) :
    ∀ j, (markTurns s1 s2 j l).length = l.length := by
  induction l with
  | nil => intro j; simp [markTurns]
  | cons a rest ih => intro j; simp [markTurns, ih (j + 1)]

theorem getD_markTurns (s1 s2 : Int) (l : List (List Int)) :
    ∀ j i, i < l.length →
      (markTurns s1 s2 j l).getD i [] =
        (if (j + i) % 2 = 0 then s1 else s2) :: l.getD i [] := by
  induction l with
  | nil => intro j i hi; simp at hi
  | cons a rest ih =>
    intro j i hi
    cases i with
    | zero => simp [markTurns]
    | succ k =>
      simp only [markTurns, List.getD_cons_succ]
      rw [ih (j + 1) k (by simpa using hi)]
      rw [show j + 1 + k = j + (k + 1) from by omega]

theorem length_speakerTypes (s1 s2 : Int) (l : List (List Int)) :
    ∀ j, (speakerTypes s1 s2 j l).length = (l.map List.length).sum := by
  induction l with
  | nil => intro j; simp [speakerTypes]
  | cons a rest ih => intro j; simp [speakerTypes, ih (j + 1)]

theorem pySlice_zero_negOne (l : List α) : pySlice 0 (-1) l = l.dropLast := by
  simp only [pySlice]
  rw [if_neg (lt_irrefl 0), if_pos (by omega : (-1 : Int) < 0)]
  rw [min_eq_right (by positivity : (0 : Int) ≤ l.length)]
  rw [show (max 0 ((l.length : Int) + -1)).toNat = l.length - 1 from by omega]
  rw [Int.toNat_zero, List.drop_zero, ← List.dropLast_eq_take]

/-- The marked sequence of lines 81-83 in closed form: a BOS turn, the marked
history turns, and a final turn carrying the speaker marker of parity
`len(history)` followed by the response and the optional EOS. -/
theorem markedOf_structure (bos eos s1 s2 : Int) (m : Nat) (we : Bool)
    (d : List (List Int)) :
    markedOf bos eos s1 s2 m we d =
      [bos] :: (markTurns s1 s2 0 (historyOf m d) ++
        [(if (historyOf m d).length % 2 = 0 then s1 else s2) ::
          (d.getLastD [] ++ (if we then [eos] else []))]) := by
  unfold markedOf sequenceOf
  simp only [List.headD_cons, List.tail_cons]
  rw [markTurns_append]
  simp [markTurns]

/-- The three sequences of any produced instance have equal length, with no
precondition at all: the marked sequence always ends in a nonempty turn, so
the `+ [-1] + sequence[-1][1:]` arithmetic always rebalances. -/
theorem lengths_aux (bos s1 s2 : Int) (mt : List (List Int)) (a : Int) (u : List Int) :
    (([bos] :: (mt ++ [a :: u])).flatten.length =
      (bos :: speakerTypes s1 s2 0 ([bos] :: (mt ++ [a :: u])).tail).length) ∧
    ((List.replicate ((List.map List.length
          (pySlice 0 (-1) ([bos] :: (mt ++ [a :: u])))).sum) (-1) ++
        (-1) :: ((([bos] :: (mt ++ [a :: u])).getLastD []).tail)).length =
      ([bos] :: (mt ++ [a :: u])).flatten.length) := by
  have hsplit : ([bos] : List Int) :: (mt ++ [a :: u]) = (([bos] : List Int) :: mt) ++ [a :: u] :=
    rfl
  constructor
  · simp [List.length_flatten, length_speakerTypes]
  · rw [pySlice_zero_negOne, hsplit, List.dropLast_concat, List.getLastD_concat]
    simp [List.length_flatten, List.sum_append]
    omega

theorem processDialog_lengths (bos eos s1 s2 : Int) (m : Nat) (we ll : Bool)
    (d : List (List Int)) :
    (processDialog bos eos s1 s2 m we ll d).input_ids.length =
      (processDialog bos eos s1 s2 m we ll d).token_type_ids.length ∧
    (processDialog bos eos s1 s2 m we ll d).token_type_ids.length =
      (processDialog bos eos s1 s2 m we ll d).lm_labels.length := by
  have h := lengths_aux bos s1 s2 (markTurns s1 s2 0 (historyOf m d))
    (if (historyOf m d).length % 2 = 0 then s1 else s2)
    (d.getLastD [] ++ (if we then [eos] else []))
  simp only [processDialog, markedOf_structure]
  cases ll with
  | false =>
    rw [if_neg Bool.false_ne_true]
    exact ⟨h.1, by rw [List.length_replicate]; exact h.1.symm⟩
  | true =>
    rw [if_pos rfl]
    exact ⟨h.1, h.1.symm.trans h.2.symm⟩

/-- Claim C1: for every tokenized dataset whose dialogues all have length at
least 2 and `max_history >= 1`, every `Instance` produced by `data_process`
(for any `with_eos`/`lm_labels` flags) has
`len(input_ids) = len(token_type_ids) = len(lm_labels)`, so the assertion at
the end of instance construction never fails. -/
theorem C1_instance_lengths (bos eos s1 s2 : Int) (m : Nat)
    (data : List (String × List (List (List Int)))) (we ll : Bool)
    (hm : 1 ≤ m) (hdata : ∀ p ∈ data, ∀ d ∈ p.2, 2 ≤ d.length) :
    ∀ q ∈ data_process bos eos s1 s2 m data we ll, ∀ inst ∈ q.2,
      inst.input_ids.length = inst.token_type_ids.length ∧
      inst.token_type_ids.length = inst.lm_labels.length := by
  intro q hq inst hinst
  unfold data_process at hq
  obtain ⟨p, hp, rfl⟩ := List.mem_map.1 hq
  obtain ⟨d, hd, rfl⟩ := List.mem_map.1 hinst
  exact processDialog_lengths bos eos s1 s2 m we ll d

/-- Witness for C1 at a concrete dataset. -/
theorem C1_instance_lengths_witness :
    (processDialog 1 2 5 6 1 true true [[10, 11], [20], [30, 31]]).input_ids.length =
      (processDialog 1 2 5 6 1 true true [[10, 11], [20], [30, 31]]).token_type_ids.length ∧
    (processDialog 1 2 5 6 1 true true [[10, 11], [20], [30, 31]]).token_type_ids.length =
      (processDialog 1 2 5 6 1 true true [[10, 11], [20], [30, 31]]).lm_labels.length :=
  C1_instance_lengths 1 2 5 6 1 [("train", [[[10, 11], [20], [30, 31]]])] true true
    (by decide) (by decide)
    ("train", [processDialog 1 2 5 6 1 true true [[10, 11], [20], [30, 31]]]) (by decide)
    (processDialog 1 2 5 6 1 true true [[10, 11], [20], [30, 31]]) (by decide)

/-- Claim C3: for every dialogue of length at least 2 and `max_history >= 1`,
`history = dialog[-2*max_history:-1]` is exactly the window of utterances
preceding the final one — it equals `dropLast` of the dialogue with all but
the last `2*max_history - 1` entries removed, has at most `2*max_history - 1`
utterances, and is a suffix of the dialogue without its final utterance (so
the final utterance is never part of it). -/
theorem C3_history_window (m : Nat) (d : List (List Int))
    (hm : 1 ≤ m) (hd : 2 ≤ d.length) :
    historyOf m d = d.dropLast.drop (d.length - 2 * m) ∧
    (historyOf m d).length ≤ 2 * m - 1 ∧
    historyOf m d <:+ d.dropLast := by
  have key : historyOf m d = d.dropLast.drop (d.length - 2 * m) := by
    unfold historyOf
    simp only [pySlice]
    rw [if_pos (by omega : -(2 * (m : Int)) < 0), if_pos (by omega : (-1 : Int) < 0)]
    rw [show (max 0 ((d.length : Int) + -1)).toNat = d.length - 1 from by omega]
    rw [show (max 0 ((d.length : Int) + -(2 * (m : Int)))).toNat = d.length - 2 * m from by
      omega]
    rw [← List.dropLast_eq_take]
  refine ⟨key, ?_, ?_⟩
  · rw [key]
    simp only [List.length_drop, List.length_dropLast]
    omega
  · rw [key]
    exact List.drop_suffix _ _

/-- Witness for C3 at a concrete dialogue. -/
theorem C3_history_window_witness :
    historyOf 1 [[10, 11], [20], [30, 31]] =
      ([[10, 11], [20], [30, 31]] : List (List Int)).dropLast.drop
        (([[10, 11], [20], [30, 31]] : List (List Int)).length - 2 * 1) ∧
    (historyOf 1 [[10, 11], [20], [30, 31]]).length ≤ 2 * 1 - 1 ∧
    historyOf 1 [[10, 11], [20], [30, 31]] <:+
      ([[10, 11], [20], [30, 31]] : List (List Int)).dropLast :=
  C3_history_window 1 [[10, 11], [20], [30, 31]] (by decide) (by decide)

/-- Claim C4: in every instance built by `data_process`, each post-BOS turn of
the marked sequence is its original turn with exactly one speaker-marker token
prepended, and the markers alternate by turn-index parity starting with
speaker-A (`[speaker1]`) at post-BOS index 0, for every `max_history` and
dialogue. -/
theorem C4_speaker_alternation (bos eos s1 s2 : Int) (m : Nat) (we : Bool)
    (d : List (List Int)) :
    ∀ i, i < (sequenceOf bos eos m we d).tail.length →
      (markedOf bos eos s1 s2 m we d).tail.getD i [] =
        (if i % 2 = 0 then s1 else s2) :: (sequenceOf bos eos m we d).tail.getD i [] := by
  intro i hi
  simp only [markedOf, List.tail_cons]
  rw [getD_markTurns s1 s2 _ 0 i hi]
  simp

/-- Witness for C4: the second post-BOS turn of the worked example carries
speaker-B. -/
theorem C4_speaker_alternation_witness :
    (markedOf 1 2 5 6 1 true [[10, 11], [20], [30, 31]]).tail.getD 1 [] =
      (if 1 % 2 = 0 then (5 : Int) else 6) ::
        (sequenceOf 1 2 1 true [[10, 11], [20], [30, 31]]).tail.getD 1 [] :=
  C4_speaker_alternation 1 2 5 6 1 true [[10, 11], [20], [30, 31]] 1 (by decide)

/-- Claim C2: the spec's worked example. With `max_history = 1`, dialogue
`[[10,11],[20],[30,31]]`, BOS=1, EOS=2, speaker-A=5, speaker-B=6 and default
flags, `data_process` computes `history = [[20]]`, the marked sequence
`[[1],[5,20],[6,30,31,2]]`, and the instance
`input_ids=[1,5,20,6,30,31,2]`, `token_type_ids=[1,5,5,6,6,6,6]`,
`lm_labels=[-1,-1,-1,-1,30,31,2]`. -/
theorem C2_worked_example :
    historyOf 1 [[10, 11], [20], [30, 31]] = [[20]] ∧
    markedOf 1 2 5 6 1 true [[10, 11], [20], [30, 31]] = [[1], [5, 20], [6, 30, 31, 2]] ∧
    processDialog 1 2 5 6 1 true true [[10, 11], [20], [30, 31]] =
      ⟨[1, 5, 20, 6, 30, 31, 2], [1, 5, 5, 6, 6, 6, 6], [-1, -1, -1, -1, 30, 31, 2]⟩ := by
  decide

theorem getD_replicate_of_lt (a : Int) : ∀ n j, j < n → (List.replicate n a).getD j 0 = a := by
  intro n
  induction n with
  | zero => intro j hj; omega
  | succ k ih =>
    intro j hj
    cases j with
    | zero => simp [List.replicate_succ]
    | succ i => simpa [List.replicate_succ] using ih i (by omega)

/-- The `input_ids` of an instance in closed form: BOS, the flattened marked
history, then the final turn's marker, response, and optional EOS. -/
theorem input_ids_eq (bos eos s1 s2 : Int) (m : Nat) (we ll : Bool)
    (d : List (List Int)) :
    (processDialog bos eos s1 s2 m we ll d).input_ids =
      bos :: ((markTurns s1 s2 0 (historyOf m d)).flatten ++
        ((if (historyOf m d).length % 2 = 0 then s1 else s2) ::
          (d.getLastD [] ++ (if we then [eos] else [])))) := by
  simp only [processDialog, markedOf_structure]
  simp [List.flatten_cons, List.flatten_append]

/-- The `lm_labels` of an instance with the `lm_labels` flag set, in closed
form: ignore markers over the BOS turn, all history turns and the final
turn's marker position, then the response ids and optional EOS. -/
theorem lm_labels_true_eq (bos eos s1 s2 : Int) (m : Nat) (we : Bool)
    (d : List (List Int)) :
    (processDialog bos eos s1 s2 m we true d).lm_labels =
      List.replicate
          ((processDialog bos eos s1 s2 m we true d).input_ids.length -
            (d.getLastD [] ++ (if we then [eos] else [])).length - 1 + 1) (-1) ++
        (d.getLastD [] ++ (if we then [eos] else [])) := by
  rw [input_ids_eq]
  simp only [processDialog, markedOf_structure, if_pos rfl, pySlice_zero_negOne]
  rw [show ([bos] : List Int) :: (markTurns s1 s2 0 (historyOf m d) ++
        [(if (historyOf m d).length % 2 = 0 then s1 else s2) ::
          (d.getLastD [] ++ (if we then [eos] else []))]) =
      (([bos] : List Int) :: markTurns s1 s2 0 (historyOf m d)) ++
        [(if (historyOf m d).length % 2 = 0 then s1 else s2) ::
          (d.getLastD [] ++ (if we then [eos] else []))] from rfl]
  rw [List.dropLast_concat, List.getLastD_concat, List.tail_cons]
  rw [List.replicate_succ', List.append_assoc]
  simp [List.length_flatten]
  omega

/-- Claim C5: with the `lm_labels` flag set, every `lm_labels` position up to
and including the final turn's speaker-marker position is the ignore marker
`-1`, and the remaining positions are exactly the final turn with its marker
excluded, i.e. the response followed by the optional EOS. -/
theorem C5_lm_labels_mask (bos eos s1 s2 : Int) (m : Nat) (we : Bool)
    (d : List (List Int)) (hd : 2 ≤ d.length) :
    (∀ j, j ≤ (processDialog bos eos s1 s2 m we true d).input_ids.length -
        (d.getLastD [] ++ (if we then [eos] else [])).length - 1 →
      (processDialog bos eos s1 s2 m we true d).lm_labels.getD j 0 = -1) ∧
    (processDialog bos eos s1 s2 m we true d).lm_labels.drop
        ((processDialog bos eos s1 s2 m we true d).input_ids.length -
          (d.getLastD [] ++ (if we then [eos] else [])).length - 1 + 1) =
      d.getLastD [] ++ (if we then [eos] else []) := by
  rw [lm_labels_true_eq]
  constructor
  · intro j hj
    rw [List.getD_append _ _ _ j (by simp only [List.length_replicate]; omega)]
    exact getD_replicate_of_lt _ _ _ (by omega)
  · have h2 := List.drop_left
      (List.replicate
        ((processDialog bos eos s1 s2 m we true d).input_ids.length -
          (d.getLastD [] ++ (if we then [eos] else [])).length - 1 + 1) (-1 : Int))
      (d.getLastD [] ++ (if we then [eos] else []))
    rwa [List.length_replicate] at h2

/-- Witness for C5 on the worked example. -/
theorem C5_lm_labels_mask_witness :
    (∀ j, j ≤ (processDialog 1 2 5 6 1 true true [[10, 11], [20], [30, 31]]).input_ids.length -
        (([[10, 11], [20], [30, 31]] : List (List Int)).getLastD [] ++
          (if true then [2] else [])).length - 1 →
      (processDialog 1 2 5 6 1 true true [[10, 11], [20], [30, 31]]).lm_labels.getD j 0 = -1) ∧
    (processDialog 1 2 5 6 1 true true [[10, 11], [20], [30, 31]]).lm_labels.drop
        ((processDialog 1 2 5 6 1 true true [[10, 11], [20], [30, 31]]).input_ids.length -
          (([[10, 11], [20], [30, 31]] : List (List Int)).getLastD [] ++
            (if true then [2] else [])).length - 1 + 1) =
      ([[10, 11], [20], [30, 31]] : List (List Int)).getLastD [] ++
        (if true then [2] else []) :=
  C5_lm_labels_mask 1 2 5 6 1 true [[10, 11], [20], [30, 31]] (by decide)

/-- Claim C6: with the `lm_labels` flag cleared, `lm_labels` is entirely the
ignore marker `-1` and has the same length as `input_ids`. -/
theorem C6_lm_labels_all_ignore (bos eos s1 s2 : Int) (m : Nat) (we : Bool)
    (d : List (List Int)) (hd : 2 ≤ d.length) :
    (∀ x ∈ (processDialog bos eos s1 s2 m we false d).lm_labels, x = -1) ∧
    (processDialog bos eos s1 s2 m we false d).lm_labels.length =
      (processDialog bos eos s1 s2 m we false d).input_ids.length := by
  have hfalse : (processDialog bos eos s1 s2 m we false d).lm_labels =
      List.replicate (processDialog bos eos s1 s2 m we false d).input_ids.length (-1) := rfl
  rw [hfalse]
  exact ⟨fun x hx => (List.mem_replicate.1 hx).2, List.length_replicate _ _⟩

/-- Witness for C6 on the worked example. -/
theorem C6_lm_labels_all_ignore_witness :
    (∀ x ∈ (processDialog 1 2 5 6 1 true false [[10, 11], [20], [30, 31]]).lm_labels, x = -1) ∧
    (processDialog 1 2 5 6 1 true false [[10, 11], [20], [30, 31]]).lm_labels.length =
      (processDialog 1 2 5 6 1 true false [[10, 11], [20], [30, 31]]).input_ids.length :=
  C6_lm_labels_all_ignore 1 2 5 6 1 true [[10, 11], [20], [30, 31]] (by decide)

/-- Claim C7: for a dialogue with a nonempty final response, the last token of
`input_ids` is the EOS id when `with_eos` is set, and is the response's own
last token when `with_eos` is cleared (so in that case it equals EOS only if
the response itself ends with that id). -/
theorem C7_last_token (bos eos s1 s2 : Int) (m : Nat) (ll : Bool)
    (d : List (List Int)) (hd : 2 ≤ d.length) (hr : d.getLastD [] ≠ []) :
    (processDialog bos eos s1 s2 m true ll d).input_ids.getLast? = some eos ∧
    (processDialog bos eos s1 s2 m false ll d).input_ids.getLast? =
      (d.getLastD []).getLast? := by
  constructor
  · rw [input_ids_eq]
    rw [show (bos :: ((markTurns s1 s2 0 (historyOf m d)).flatten ++
        ((if (historyOf m d).length % 2 = 0 then s1 else s2) ::
          (d.getLastD [] ++ (if true then [eos] else []))))) =
      (bos :: ((markTurns s1 s2 0 (historyOf m d)).flatten ++
        ((if (historyOf m d).length % 2 = 0 then s1 else s2) :: d.getLastD []))) ++ [eos]
      from by simp]
    exact List.getLast?_concat _
  · rw [input_ids_eq]
    obtain ⟨a, resp, hresp⟩ := List.exists_cons_of_ne_nil hr
    rw [hresp]
    simp only [if_neg Bool.false_ne_true, List.append_nil]
    rw [show (bos :: ((markTurns s1 s2 0 (historyOf m d)).flatten ++
        ((if (historyOf m d).length % 2 = 0 then s1 else s2) :: (a :: resp)))) =
      (bos :: (markTurns s1 s2 0 (historyOf m d)).flatten ++
        [(if (historyOf m d).length % 2 = 0 then s1 else s2)]) ++ (a :: resp) from by simp]
    rw [List.getLast?_append]
    obtain ⟨b, hb⟩ : ∃ b, (a :: resp).getLast? = some b :=
      Option.isSome_iff_exists.1 (by simp [List.getLast?_isSome])
    rw [hb]
    rfl

/-- Witness for C7 on the worked example. -/
theorem C7_last_token_witness :
    (processDialog 1 2 5 6 1 true true [[10, 11], [20], [30, 31]]).input_ids.getLast? =
      some 2 ∧
    (processDialog 1 2 5 6 1 false true [[10, 11], [20], [30, 31]]).input_ids.getLast? =
      (([[10, 11], [20], [30, 31]] : List (List Int)).getLastD []).getLast? :=
  C7_last_token 1 2 5 6 1 true [[10, 11], [20], [30, 31]] (by decide) (by decide)

/-! ### The recursive `tokenize` inside `get_data` (lines 35-40) -/

/-- A raw JSON-like value as `json.loads` produces it: a string leaf, a
mapping (`dict`, keys in insertion order), or a sequence (`list`). -/
inductive JVal where
  | str : String → JVal
  | map : List (String × JVal) → JVal
  | arr : List JVal → JVal

/-- A tokenized value: string leaves replaced by token-id sequences, the
container structure untouched. -/
inductive TVal where
  | ids : List Int → TVal
  | map : List (String × TVal) → TVal
  | arr : List TVal → TVal

mutual

/-- Lines 35-40, `def tokenize(obj)`: a string leaf becomes
`tokenizer.convert_tokens_to_ids(tokenizer.tokenize(obj))` — modelled by the
tokenizer capability `tk : String → List Int` — a `dict` becomes a `dict`
over the same keys, and any other iterable becomes the list of its tokenized
elements. -/
def tokenize (tk : String → List Int) : JVal → TVal
  | .str s => .ids (tk s)
  | .map l => .map (tokenizeItems tk l)
  | .arr l => .arr (tokenizeElems tk l)

/-- The `dict((n, tokenize(o)) for n, o in obj.items())` comprehension. -/
def tokenizeItems (tk : String → List Int) : List (String × JVal) → List (String × TVal)
  | [] => []
  | (n, o) :: rest => (n, tokenize tk o) :: tokenizeItems tk rest

/-- The `list(tokenize(o) for o in obj)` comprehension. -/
def tokenizeElems (tk : String → List Int) : List JVal → List TVal
  | [] => []
  | o :: rest => tokenize tk o :: tokenizeElems tk rest

end

/-- The structural shape of a nested value: leaves erased, mapping keys and
their arrangement and sequence lengths kept. -/
inductive Shape where
  | leaf : Shape
  | map : List (String × Shape) → Shape
  | arr : List Shape → Shape

mutual

def shapeJ : JVal → Shape
  | .str _ => .leaf
  | .map l => .map (shapeJItems l)
  | .arr l => .arr (shapeJElems l)

def shapeJItems : List (String × JVal) → List (String × Shape)
  | [] => []
  | (n, o) :: rest => (n, shapeJ o) :: shapeJItems rest

def shapeJElems : List JVal → List Shape
  | [] => []
  | o :: rest => shapeJ o :: shapeJElems rest

end

mutual

def shapeT : TVal → Shape
  | .ids _ => .leaf
  | .map l => .map (shapeTItems l)
  | .arr l => .arr (shapeTElems l)

def shapeTItems : List (String × TVal) → List (String × Shape)
  | [] => []
  | (n, o) :: rest => (n, shapeT o) :: shapeTItems rest

def shapeTElems : List TVal → List Shape
  | [] => []
  | o :: rest => shapeT o :: shapeTElems rest

end

mutual

theorem tokenize_shape_aux (tk : String → List Int) :
    ∀ v : JVal, shapeT (tokenize tk v) = shapeJ v
  | .str s => rfl
  | .map l => by rw [tokenize, shapeT, shapeJ, tokenizeItems_shape_aux tk l]
  | .arr l => by rw [tokenize, shapeT, shapeJ, tokenizeElems_shape_aux tk l]

theorem tokenizeItems_shape_aux (tk : String → List Int) :
    ∀ l : List (String × JVal), shapeTItems (tokenizeItems tk l) = shapeJItems l
  | [] => rfl
  | (n, o) :: rest => by
    rw [tokenizeItems, shapeTItems, shapeJItems, tokenize_shape_aux tk o,
      tokenizeItems_shape_aux tk rest]

theorem tokenizeElems_shape_aux (tk : String → List Int) :
    ∀ l : List JVal, shapeTElems (tokenizeElems tk l) = shapeJElems l
  | [] => rfl
  | o :: rest => by
    rw [tokenizeElems, shapeTElems, shapeJElems, tokenize_shape_aux tk o,
      tokenizeElems_shape_aux tk rest]

end

/-- Claim C8: the recursive `tokenize` inside `get_data` preserves structural
shape exactly — a mapping yields a mapping with the same keys in the same
arrangement, a sequence yields a sequence of the same length, empty containers
stay empty containers — and only string leaves are transformed, into their
token-id sequences. -/
theorem C8_tokenize_preserves_shape (tk : String → List Int) :
    (∀ v : JVal, shapeT (tokenize tk v) = shapeJ v) ∧
    (∀ s : String, tokenize tk (.str s) = .ids (tk s)) :=
  ⟨tokenize_shape_aux tk, fun _ => rfl⟩

/-! ### `get_data` (lines 18-43): cache key and cache-hit behaviour -/

/-- Line 14: `SMALCleanWB_URL = ""`, the fallback dataset location. -/
def SMALCleanWB_URL : String := ""

/-- Python `v[:5]`: the first five elements of a sequence (or characters of a
string); slicing a mapping raises in Python and is left as the identity here —
`get_data` only ever slices the split lists of a JSON object. -/
def pyTake5 : JVal → JVal
  | .arr xs => .arr (xs.take 5)
  | .str s => .str (s.take 5)
  | v => v

/-- Line 31: `samples` is a list of
singleton mappings over the raw (untokenized) dataset; `none` when the parsed
value is not a JSON object (Python would raise on `.items()`). -/
def samplesOf : JVal → Option JVal
  | .map l => some (.arr (l.map fun p => .map [(p.1, pyTake5 p.2)]))
  | _ => none

/-- What `get_data` returns, plus the resulting file-system state: the
(tokenized) dataset, the raw preview `samples`, and the cache-file map after
the `torch.save`. -/
structure GetDataResult where
  dataset : TVal
  samples : Option JVal
  fs : String → Option TVal

/-- Lines 18-43, `get_data`. External collaborators are parameters:
`tokenizerTypeName` is `type(tokenizer).__name__`, `tk` the tokenizer
capability, `resolve` the composition of `cached_path`, `open` and
`json.loads`, and `fs` the file system as a map from path to the serialized
tokenized dataset stored there (`os.path.isfile` is `(fs p).isSome`,
`torch.load` reads the entry, `torch.save` writes it). -/
def get_data (tokenizerTypeName : String) (tk : String → List Int)
    (resolve : String → JVal) (fs : String → Option TVal)
    (dataset_path dataset_cache : String) : GetDataResult :=
  let dataset_path := if dataset_path = "" then SMALCleanWB_URL else dataset_path
  let dataset_cache := dataset_cache ++ "_" ++ tokenizerTypeName
  if dataset_cache ≠ "" ∧ (fs dataset_cache).isSome then
    { dataset := (fs dataset_cache).getD (.ids []), samples := none, fs := fs }
  else
    let raw := resolve dataset_path
    let dataset := tokenize tk raw
    { dataset := dataset, samples := samplesOf raw,
      fs := fun p => if p = dataset_cache then some dataset else fs p }

/-- Claim C9: the cache key is `{dataset_cache}_{tokenizer_type_name}`, and
whenever a file exists at that key, `get_data` returns its deserialized
contents unchanged with `samples` absent, performing no tokenization (the
result does not depend on the tokenizer `tk` or on the raw dataset) and
leaving the file system untouched. -/
theorem C9_cache_hit (tokenizerTypeName : String) (tk : String → List Int)
    (resolve : String → JVal) (fs : String → Option TVal)
    (dataset_path dataset_cache : String) (d : TVal)
    (hfs : fs (dataset_cache ++ "_" ++ tokenizerTypeName) = some d) :
    get_data tokenizerTypeName tk resolve fs dataset_path dataset_cache =
      ⟨d, none, fs⟩ := by
  simp only [get_data]
  rw [if_pos ⟨by
    intro h
    have hl := congrArg String.length h
    rw [String.length_append, String.length_append] at hl
    have h1 : ("_" : String).length = 1 := rfl
    have h0 : ("" : String).length = 0 := rfl
    omega, by rw [hfs]; rfl⟩]
  rw [hfs]
  rfl

/-- Witness for C9: a concrete cache hit. -/
theorem C9_cache_hit_witness :
    get_data ("BertTokenizer") (fun _ => []) (fun _ => JVal.arr [])
      (fun p => if p = "cache_BertTokenizer" then some (TVal.ids [7]) else none)
      "path" "cache" =
      ⟨TVal.ids [7], none,
        fun p => if p = "cache_BertTokenizer" then some (TVal.ids [7]) else none⟩ :=
  C9_cache_hit ("BertTokenizer") (fun _ => []) (fun _ => JVal.arr [])
    (fun p => if p = "cache_BertTokenizer" then some (TVal.ids [7]) else none)
    "path" "cache" (TVal.ids [7]) (by simp)

/-! ### C10: `data_process` does not mutate its input

The frame claim is about Python object mutation, so we re-run the instance
builder over an explicit heap. A cell is a Python list object; the source
builds instances using only non-mutating primitives — slicing, `+`
concatenation and list construction, each of which returns a new list object —
and never assigns into an existing list, so the heap embedding's only
state-changing operation is fresh allocation. The theorem records that the
pre-existing cells are untouched and the produced instance lists live in fresh
cells, disjoint from everything the input can reach. -/

/-- A heap cell: a Python list of token ids, or a Python list holding
references to other list objects (a dialogue's list of utterances). -/
inductive HVal where
  | ints : List Int → HVal
  | addrs : List Nat → HVal
deriving DecidableEq, Repr

/-- The references stored in a cell. -/
def HVal.refs : HVal → List Nat
  | .ints _ => []
  | .addrs l => l

/-- A heap is a store of list objects addressed by index. -/
abbrev Heap := List HVal

/-- Read a token-id list object. -/
def readInts (h : Heap) (a : Nat) : List Int :=
  match h.getD a (.ints []) with
  | .ints l => l
  | .addrs _ => []

/-- Read a reference-list object. -/
def readAddrs (h : Heap) (a : Nat) : List Nat :=
  match h.getD a (.ints []) with
  | .addrs l => l
  | .ints _ => []

/-- The value of the dialogue object at address `a`: the token-id lists of its
utterances. -/
def readDialog (h : Heap) (a : Nat) : List (List Int) :=
  (readAddrs h a).map (readInts h)

/-- Every reference stored in the heap points at an existing cell. -/
def Closed (h : Heap) : Prop := ∀ v ∈ h, ∀ a ∈ v.refs, a < h.length

/-- Allocate a new list object; the heap only grows. -/
def halloc (h : Heap) (v : HVal) : Heap × Nat := (h ++ [v], h.length)

/-- The per-dialogue body of `data_process` on the heap: read the dialogue's
utterances, compute the three instance sequences (the pure `processDialog`;
every intermediate of lines 78-90 is itself a freshly constructed list), and
allocate fresh cells for the `instance` dict's three lists. -/
def processDialogH (bos eos s1 s2 : Int) (m : Nat) (we ll : Bool)
    (h : Heap) (da : Nat) : Heap × (Nat × Nat × Nat) :=
  let inst := processDialog bos eos s1 s2 m we ll (readDialog h da)
  let r1 := halloc h (.ints inst.input_ids)
  let r2 := halloc r1.1 (.ints inst.token_type_ids)
  let r3 := halloc r2.1 (.ints inst.lm_labels)
  (r3.1, (r1.2, r2.2, r3.2))

/-- The dialogue loop of one split, threading the heap. -/
def splitH (bos eos s1 s2 : Int) (m : Nat) (we ll : Bool) :
    Heap → List Nat → Heap × List (Nat × Nat × Nat)
  | h, [] => (h, [])
  | h, da :: rest =>
    let r := processDialogH bos eos s1 s2 m we ll h da
    let rs := splitH bos eos s1 s2 m we ll r.1 rest
    (rs.1, r.2 :: rs.2)

/-- The heap-level `data_process`: every split's dialogues in order. -/
def data_processH (bos eos s1 s2 : Int) (m : Nat) (we ll : Bool) :
    Heap → List (String × List Nat) → Heap × List (String × List (Nat × Nat × Nat))
  | h, [] => (h, [])
  | h, (name, das) :: rest =>
    let r := splitH bos eos s1 s2 m we ll h das
    let rs := data_processH bos eos s1 s2 m we ll r.1 rest
    (rs.1, (name, r.2) :: rs.2)

theorem readAddrs_eq_refs (h : Heap) (a : Nat) :
    readAddrs h a = (h.getD a (.ints [])).refs := by
  unfold readAddrs HVal.refs
  cases h.getD a (.ints []) <;> rfl

/-- Reads of a pre-existing dialogue object see the same value after the heap
has grown: the input is value-identical before and after. -/
theorem readDialog_append (h ext : Heap) (hc : Closed h) (da : Nat)
    (hda : da < h.length) : readDialog (h ++ ext) da = readDialog h da := by
  unfold readDialog
  rw [show readAddrs (h ++ ext) da = readAddrs h da from by
    unfold readAddrs; rw [List.getD_append _ _ _ da hda]]
  apply List.map_congr_left
  intro u hu
  have hmem : h.getD da (.ints []) ∈ h := by
    rw [List.getD_eq_getElem _ _ hda]
    exact List.getElem_mem hda
  have hu' : u < h.length := hc _ hmem u (by rwa [readAddrs_eq_refs] at hu)
  unfold readInts
  rw [List.getD_append _ _ _ u hu']

theorem processDialogH_spec (bos eos s1 s2 : Int) (m : Nat) (we ll : Bool)
    (h : Heap) (da : Nat) :
    (∃ ext, (processDialogH bos eos s1 s2 m we ll h da).1 = h ++ ext) ∧
    h.length ≤ (processDialogH bos eos s1 s2 m we ll h da).2.1 ∧
    h.length ≤ (processDialogH bos eos s1 s2 m we ll h da).2.2.1 ∧
    h.length ≤ (processDialogH bos eos s1 s2 m we ll h da).2.2.2 := by
  refine ⟨⟨[.ints (processDialog bos eos s1 s2 m we ll (readDialog h da)).input_ids,
      .ints (processDialog bos eos s1 s2 m we ll (readDialog h da)).token_type_ids,
      .ints (processDialog bos eos s1 s2 m we ll (readDialog h da)).lm_labels], ?_⟩,
    ?_, ?_, ?_⟩ <;>
    simp [processDialogH, halloc, List.append_assoc]

theorem splitH_spec (bos eos s1 s2 : Int) (m : Nat) (we ll : Bool) :
    ∀ (das : List Nat) (h : Heap),
      (∃ ext, (splitH bos eos s1 s2 m we ll h das).1 = h ++ ext) ∧
      (∀ t ∈ (splitH bos eos s1 s2 m we ll h das).2,
        h.length ≤ t.1 ∧ h.length ≤ t.2.1 ∧ h.length ≤ t.2.2) := by
  intro das
  induction das with
  | nil => intro h; exact ⟨⟨[], by simp [splitH]⟩, by simp [splitH]⟩
  | cons da rest ih =>
    intro h
    obtain ⟨⟨e1, he1⟩, h1, h2, h3⟩ := processDialogH_spec bos eos s1 s2 m we ll h da
    obtain ⟨⟨e2, he2⟩, hts⟩ := ih (processDialogH bos eos s1 s2 m we ll h da).1
    have hlen : h.length ≤ (processDialogH bos eos s1 s2 m we ll h da).1.length := by
      rw [he1]; simp
    constructor
    · refine ⟨e1 ++ e2, ?_⟩
      show (splitH bos eos s1 s2 m we ll
        (processDialogH bos eos s1 s2 m we ll h da).1 rest).1 = h ++ (e1 ++ e2)
      rw [he2, he1, List.append_assoc]
    · intro t ht
      have ht' : t = (processDialogH bos eos s1 s2 m we ll h da).2 ∨
          t ∈ (splitH bos eos s1 s2 m we ll
            (processDialogH bos eos s1 s2 m we ll h da).1 rest).2 := by
        simpa [splitH] using ht
      rcases ht' with rfl | ht'
      · exact ⟨h1, h2, h3⟩
      · have := hts t ht'
        exact ⟨le_trans hlen this.1, le_trans hlen this.2.1, le_trans hlen this.2.2⟩

theorem data_processH_spec (bos eos s1 s2 : Int) (m : Nat) (we ll : Bool) :
    ∀ (data : List (String × List Nat)) (h : Heap),
      (∃ ext, (data_processH bos eos s1 s2 m we ll h data).1 = h ++ ext) ∧
      (∀ s ∈ (data_processH bos eos s1 s2 m we ll h data).2, ∀ t ∈ s.2,
        h.length ≤ t.1 ∧ h.length ≤ t.2.1 ∧ h.length ≤ t.2.2) := by
  intro data
  induction data with
  | nil => intro h; exact ⟨⟨[], by simp [data_processH]⟩, by simp [data_processH]⟩
  | cons p rest ih =>
    intro h
    obtain ⟨name, das⟩ := p
    obtain ⟨⟨e1, he1⟩, hts⟩ := splitH_spec bos eos s1 s2 m we ll das h
    obtain ⟨⟨e2, he2⟩, hrest⟩ := ih (splitH bos eos s1 s2 m we ll h das).1
    have hlen : h.length ≤ (splitH bos eos s1 s2 m we ll h das).1.length := by
      rw [he1]; simp
    constructor
    · refine ⟨e1 ++ e2, ?_⟩
      show (data_processH bos eos s1 s2 m we ll
        (splitH bos eos s1 s2 m we ll h das).1 rest).1 = h ++ (e1 ++ e2)
      rw [he2, he1, List.append_assoc]
    · intro s hs t ht
      have hs' : s = (name, (splitH bos eos s1 s2 m we ll h das).2) ∨
          s ∈ (data_processH bos eos s1 s2 m we ll
            (splitH bos eos s1 s2 m we ll h das).1 rest).2 := by
        simpa [data_processH] using hs
      rcases hs' with rfl | hs'
      · exact hts t ht
      · have := hrest s hs' t ht
        exact ⟨le_trans hlen this.1, le_trans hlen this.2.1, le_trans hlen this.2.2⟩

/-- Claim C10: `data_process` never mutates its input. Run over an explicit
heap of Python list objects, processing every dialogue of every split leaves
every pre-existing cell value-identical — in particular every dialogue object
reads back exactly as before — and the three lists of every produced instance
live at fresh addresses, so they share no mutation path with anything the
input references. -/
theorem C10_no_input_mutation (bos eos s1 s2 : Int) (m : Nat) (we ll : Bool)
    (h : Heap) (data : List (String × List Nat)) (hc : Closed h) :
    (∀ a, a < h.length →
      (data_processH bos eos s1 s2 m we ll h data).1.getD a (.ints []) =
        h.getD a (.ints [])) ∧
    (∀ da, da < h.length →
      readDialog (data_processH bos eos s1 s2 m we ll h data).1 da =
        readDialog h da) ∧
    (∀ s ∈ (data_processH bos eos s1 s2 m we ll h data).2, ∀ t ∈ s.2,
      h.length ≤ t.1 ∧ h.length ≤ t.2.1 ∧ h.length ≤ t.2.2) := by
  obtain ⟨⟨ext, hext⟩, hfresh⟩ := data_processH_spec bos eos s1 s2 m we ll data h
  refine ⟨?_, ?_, hfresh⟩
  · intro a ha
    rw [hext]
    exact List.getD_append _ _ _ a ha
  · intro da hda
    rw [hext]
    exact readDialog_append h ext hc da hda

/-- Witness for C10: a three-utterance dialogue stored in a four-cell heap. -/
theorem C10_no_input_mutation_witness :
    (∀ a, a < ([HVal.ints [10, 11], HVal.ints [20], HVal.ints [30, 31],
        HVal.addrs [0, 1, 2]] : Heap).length →
      (data_processH 1 2 5 6 1 true true
          [HVal.ints [10, 11], HVal.ints [20], HVal.ints [30, 31], HVal.addrs [0, 1, 2]]
          [("train", [3])]).1.getD a (.ints []) =
        ([HVal.ints [10, 11], HVal.ints [20], HVal.ints [30, 31],
          HVal.addrs [0, 1, 2]] : Heap).getD a (.ints [])) ∧
    (∀ da, da < ([HVal.ints [10, 11], HVal.ints [20], HVal.ints [30, 31],
        HVal.addrs [0, 1, 2]] : Heap).length →
      readDialog (data_processH 1 2 5 6 1 true true
          [HVal.ints [10, 11], HVal.ints [20], HVal.ints [30, 31], HVal.addrs [0, 1, 2]]
          [("train", [3])]).1 da =
        readDialog [HVal.ints [10, 11], HVal.ints [20], HVal.ints [30, 31],
          HVal.addrs [0, 1, 2]] da) ∧
    (∀ s ∈ (data_processH 1 2 5 6 1 true true
        [HVal.ints [10, 11], HVal.ints [20], HVal.ints [30, 31], HVal.addrs [0, 1, 2]]
        [("train", [3])]).2, ∀ t ∈ s.2,
      ([HVal.ints [10, 11], HVal.ints [20], HVal.ints [30, 31],
        HVal.addrs [0, 1, 2]] : Heap).length ≤ t.1 ∧
      ([HVal.ints [10, 11], HVal.ints [20], HVal.ints [30, 31],
        HVal.addrs [0, 1, 2]] : Heap).length ≤ t.2.1 ∧
      ([HVal.ints [10, 11], HVal.ints [20], HVal.ints [30, 31],
        HVal.addrs [0, 1, 2]] : Heap).length ≤ t.2.2) :=
  C10_no_input_mutation 1 2 5 6 1 true true
    [HVal.ints [10, 11], HVal.ints [20], HVal.ints [30, 31], HVal.addrs [0, 1, 2]]
    [("train", [3])] (by unfold Closed; decide)
